import Mathlib

/-!
Verification of the `generics` derivation engine.

The embedding mirrors the sources:
- `src/src/prim.rs`: the primitive leaf registry (`impl_identity!` over the ten
  integer widths, with `Repr = Self` and identity conversions).
- `src/generics_derive/src/lib.rs`: the derive for structs, which folds the
  fields left to right, starting from `Unit`, into
  `Prod<acc, <FieldTy as Generic>::Repr>`, destructures the value into ordinal
  bindings `_0, _1, ...`, converts each binding recursively with
  `Generic::into_repr` / `Generic::from_repr`, and rebuilds either the nested
  `Prod` value or the original record; enums hit `unimplemented!()` and unions
  hit a panic.
- `src/src/lib.rs`: the representation vocabulary `Unit`, `Prod`, `Sum`,
  `Meta`/`Singleton` and the `Generic` trait declaration.
-/

namespace Generics

/-- The ten integer types registered by `impl_identity!` in `src/src/prim.rs`. -/
inductive PrimTy where
  | u8 | u16 | u32 | u64 | u128
  | i8 | i16 | i32 | i64 | i128
deriving DecidableEq, Repr

/-- The registry list, in the order of the `impl_identity!` invocation. -/
def registeredPrims : List PrimTy :=
  [.u8, .u16, .u32, .u64, .u128, .i8, .i16, .i32, .i64, .i128]

/-- Smallest legal value of each integer type. -/
def primMin : PrimTy → Int
  | .u8 | .u16 | .u32 | .u64 | .u128 => 0
  | .i8 => -(2 ^ 7)
  | .i16 => -(2 ^ 15)
  | .i32 => -(2 ^ 31)
  | .i64 => -(2 ^ 63)
  | .i128 => -(2 ^ 127)

/-- Largest legal value of each integer type. -/
def primMax : PrimTy → Int
  | .u8 => 2 ^ 8 - 1
  | .u16 => 2 ^ 16 - 1
  | .u32 => 2 ^ 32 - 1
  | .u64 => 2 ^ 64 - 1
  | .u128 => 2 ^ 128 - 1
  | .i8 => 2 ^ 7 - 1
  | .i16 => 2 ^ 15 - 1
  | .i32 => 2 ^ 31 - 1
  | .i64 => 2 ^ 63 - 1
  | .i128 => 2 ^ 127 - 1

/-- The universe of types the derivation handles: registered primitives and
structs whose fields are themselves in the universe (the derive is invoked
recursively by the host on each nested struct). -/
inductive GTy where
  | prim : PrimTy → GTy
  | strukt : List GTy → GTy

mutual
def GTy.decEq : (a b : GTy) → Decidable (a = b)
  | .prim p, .prim q =>
    if h : p = q then isTrue (by rw [h]) else isFalse (fun hh => by cases hh; exact h rfl)
  | .prim _, .strukt _ => isFalse nofun
  | .strukt _, .prim _ => isFalse nofun
  | .strukt fs, .strukt gs =>
    match GTy.decEqList fs gs with
    | isTrue h => isTrue (by rw [h])
    | isFalse h => isFalse (fun hh => by cases hh; exact h rfl)

def GTy.decEqList : (as bs : List GTy) → Decidable (as = bs)
  | [], [] => isTrue rfl
  | [], _ :: _ => isFalse nofun
  | _ :: _, [] => isFalse nofun
  | a :: as, b :: bs =>
    match GTy.decEq a b, GTy.decEqList as bs with
    | isTrue h1, isTrue h2 => isTrue (by rw [h1, h2])
    | isFalse h1, _ => isFalse (fun hh => by injection hh with hh1 _; exact h1 hh1)
    | _, isFalse h2 => isFalse (fun hh => by injection hh with _ hh2; exact h2 hh2)
end

instance : DecidableEq GTy := GTy.decEq

/-- The representation vocabulary of `src/src/lib.rs`: `Unit`, `Prod`, `Sum`,
`Meta` (whose marker type is identified here by name), plus primitive leaves. -/
inductive ReprTy where
  | Unit : ReprTy
  | Prod : ReprTy → ReprTy → ReprTy
  | Sum : ReprTy → ReprTy → ReprTy
  | Meta : ReprTy → String → ReprTy
  | prim : PrimTy → ReprTy
deriving DecidableEq, Repr

mutual
/-- The derived `Repr` of a type: a primitive is its own representation
(`src/src/prim.rs` line 7), and a struct folds its fields left to right from
`Unit` into `Prod<acc, <FieldTy as Generic>::Repr>`
(`src/generics_derive/src/lib.rs` lines 29-34). -/
def reprOf : GTy → ReprTy
  | .prim p => .prim p
  | .strukt fs => reprOfFields fs .Unit

/-- The accumulator fold of `fields.iter().fold(Unit, |acc, field| ...)`. -/
def reprOfFields : List GTy → ReprTy → ReprTy
  | [], acc => acc
  | f :: fs, acc => reprOfFields fs (.Prod acc (reprOf f))
end

/-- Runtime values, covering both original record values (`Self { ... }`) and
representation values (`Unit`, `Prod(a, b)`); integers carry their numeric
value. -/
inductive Val where
  | int : Int → Val
  | record : List Val → Val
  | unit : Val
  | prod : Val → Val → Val

mutual
def Val.decEq : (a b : Val) → Decidable (a = b)
  | .int m, .int n =>
    if h : m = n then isTrue (by rw [h]) else isFalse (fun hh => by cases hh; exact h rfl)
  | .record as, .record bs =>
    match Val.decEqList as bs with
    | isTrue h => isTrue (by rw [h])
    | isFalse h => isFalse (fun hh => by cases hh; exact h rfl)
  | .unit, .unit => isTrue rfl
  | .prod a b, .prod c d =>
    match Val.decEq a c, Val.decEq b d with
    | isTrue h1, isTrue h2 => isTrue (by rw [h1, h2])
    | isFalse h1, _ => isFalse (fun hh => by injection hh with hh1 _; exact h1 hh1)
    | _, isFalse h2 => isFalse (fun hh => by injection hh with _ hh2; exact h2 hh2)
  | .int _, .record _ => isFalse nofun
  | .int _, .unit => isFalse nofun
  | .int _, .prod _ _ => isFalse nofun
  | .record _, .int _ => isFalse nofun
  | .record _, .unit => isFalse nofun
  | .record _, .prod _ _ => isFalse nofun
  | .unit, .int _ => isFalse nofun
  | .unit, .record _ => isFalse nofun
  | .unit, .prod _ _ => isFalse nofun
  | .prod _ _, .int _ => isFalse nofun
  | .prod _ _, .record _ => isFalse nofun
  | .prod _ _, .unit => isFalse nofun

def Val.decEqList : (as bs : List Val) → Decidable (as = bs)
  | [], [] => isTrue rfl
  | [], _ :: _ => isFalse nofun
  | _ :: _, [] => isFalse nofun
  | a :: as, b :: bs =>
    match Val.decEq a b, Val.decEqList as bs with
    | isTrue h1, isTrue h2 => isTrue (by rw [h1, h2])
    | isFalse h1, _ => isFalse (fun hh => by injection hh with hh1 _; exact h1 hh1)
    | _, isFalse h2 => isFalse (fun hh => by injection hh with _ hh2; exact h2 hh2)
end

instance : DecidableEq Val := Val.decEq

mutual
/-- The generated `into_repr` body (`src/generics_derive/src/lib.rs` lines
64-66 and 70-74): a primitive is returned unchanged (`src/src/prim.rs` lines
8-10); a struct value is destructured into its ordinal bindings, each binding
is converted recursively with `Generic::into_repr`, and the results are folded
left to right into `Prod(Prod(..Prod(Unit, _0).., _(n-1)), _n)`. The
destructuring pattern fails (`none`) on a value of the wrong shape, which the
host type system rules out for legal values. -/
def into_repr : GTy → Val → Option Val
  | .prim _, v => some v
  | .strukt fs, .record vs => (intoFields fs vs).map (fun rs => rs.foldl .prod .unit)
  | .strukt _, _ => none

/-- Pointwise recursive conversion of the ordinal bindings, in field order. -/
def intoFields : List GTy → List Val → Option (List Val)
  | [], [] => some []
  | f :: fs, v :: vs => do
    let r ← into_repr f v
    let rs ← intoFields fs vs
    pure (r :: rs)
  | _, _ => none
end

/-- Destructuring by the nested-`Prod` pattern
`Prod(Prod(..Prod(Unit, _0).., _(n-1)), _n)` used by the generated `from_repr`
(`src/generics_derive/src/lib.rs` lines 58-63 and 75-79): peels `n` `Prod`
layers off the left spine down to the `Unit` anchor and returns the `n`
leaves in field order. -/
def splitProd : Nat → Val → Option (List Val)
  | 0, .unit => some []
  | n + 1, .prod a b => (splitProd n a).map (fun l => l ++ [b])
  | _, _ => none

mutual
/-- The generated `from_repr` body (`src/generics_derive/src/lib.rs` lines
67-69 and 75-79): a primitive is returned unchanged (`src/src/prim.rs` lines
11-13); a representation value is destructured by the nested-`Prod` pattern,
each leaf binding is converted recursively with `Generic::from_repr`, and the
original record is reassembled in field order. -/
def from_repr : GTy → Val → Option Val
  | .prim _, r => some r
  | .strukt fs, r => do
    let rs ← splitProd fs.length r
    let vs ← fromFields fs rs
    pure (.record vs)

/-- Pointwise recursive reconstruction of the leaf bindings, in field order. -/
def fromFields : List GTy → List Val → Option (List Val)
  | [], [] => some []
  | f :: fs, r :: rs => do
    let v ← from_repr f r
    let vs ← fromFields fs rs
    pure (v :: vs)
  | _, _ => none
end

mutual
/-- Typing of values: a legal value of a primitive type is an in-range
integer, and a legal value of a struct type has one legal field value per
field, in field order. -/
def wf : GTy → Val → Bool
  | .prim p, .int n => decide (primMin p ≤ n) && decide (n ≤ primMax p)
  | .prim _, _ => false
  | .strukt fs, .record vs => wfFields fs vs
  | .strukt _, _ => false

def wfFields : List GTy → List Val → Bool
  | [], [] => true
  | f :: fs, v :: vs => wf f v && wfFields fs vs
  | _, _ => false
end

/-- Shape written the way the spec words it: the representation of a record
with fields `f1..fN` is `Empty` for N = 0 and otherwise
`Product(Product(..Product(Empty, f1).., f(N-1)), fN)`, i.e. `N`
left-associated nested `Product` applications over the `Empty` anchor with
leaves in field-declaration order (innermost leaf first). -/
def specShapeRev : List ReprTy → ReprTy
  | [] => .Unit
  | l :: ls => .Prod (specShapeRev ls) l

/-- The spec's nested-product shape over a leaf list in declaration order. -/
def specShape (ls : List ReprTy) : ReprTy :=
  specShapeRev ls.reverse

/-- Leaves hanging off the left spine of a nested product, in order: the
second child of each `Prod` layer, innermost first. -/
def leftSpineLeaves : ReprTy → List ReprTy
  | .Prod a b => leftSpineLeaves a ++ [b]
  | _ => []

/-- Every node of a derived representation is `Unit`, `Prod`, or a primitive
leaf: `Sum` and `Meta` never occur. -/
def hasSumOrMeta : ReprTy → Bool
  | .Unit => false
  | .Prod a b => hasSumOrMeta a || hasSumOrMeta b
  | .Sum _ _ => true
  | .Meta _ _ => true
  | .prim _ => false

/-- A where-clause predicate: the obligation `FieldTy : Generic` that the
derive emits for a field's declared type, or any pre-existing predicate of
the original declaration, kept verbatim. -/
inductive Pred where
  | genericBound : GTy → Pred
  | preexisting : String → Pred
deriving DecidableEq

/-- One field of the input struct: optional declared name and declared type. -/
structure FieldDesc where
  name : Option String
  ty : GTy
deriving DecidableEq

/-- The predicates `#field_ty : ::generics::Generic`, one per field in
declaration order (`src/generics_derive/src/lib.rs` lines 35-41). -/
def tyPredicates (fields : List FieldDesc) : List Pred :=
  fields.map (fun f => .genericBound f.ty)

/-- The combined clause (lines 87-101): the per-field obligations first,
followed verbatim by the pre-existing predicates when the declaration already
has a where clause. -/
def combinedWhereClause (existing : Option (List Pred)) (fields : List FieldDesc) : List Pred :=
  match existing with
  | some ps => tyPredicates fields ++ ps
  | none => tyPredicates fields

/-- A token of the generated code: an identifier or an integer literal. -/
inductive Tok where
  | ident : String → Tok
  | intLit : Nat → Tok
deriving DecidableEq

/-- The accessor of field `i`: its declared name when present, otherwise the
integer literal `i` (lines 42-52). -/
def accessorTok (i : Nat) (f : FieldDesc) : Tok :=
  match f.name with
  | some n => .ident n
  | none => .intLit i

/-- `self_fields`: the accessors of all fields, in declaration order. -/
def selfFields (fields : List FieldDesc) : List Tok :=
  fields.enum.map (fun p => accessorTok p.1 p.2)

/-- The synthesized local binding name `_i` for field `i` (lines 53-57). -/
def ordinalTok (i : Nat) : Tok :=
  .ident ("_" ++ toString i)

/-- `ordinals`: one binding name per field, in declaration order. -/
def ordinals (fields : List FieldDesc) : List Tok :=
  (List.range fields.length).map ordinalTok

/-- The generated representation type expression: `::generics::Unit`, nested
`::generics::Prod<_, _>` applications, and either `<T as Generic>::Repr`
(recursive mode, what the derive emits) or a raw declared type `T` (shallow
mode, which the derive does not emit). -/
inductive SynTy where
  | unitS : SynTy
  | prodS : SynTy → SynTy → SynTy
  | reprOfS : GTy → SynTy
  | rawS : GTy → SynTy
deriving DecidableEq

/-- The shape discriminant of the parsed input (`syn::Data`). -/
inductive DataShape where
  | struktD : List FieldDesc → DataShape
  | enumD : List String → DataShape
  | unionD : DataShape
deriving DecidableEq

/-- The parsed derive input: identifier, optional pre-existing where clause,
and shape. -/
structure DeriveInput where
  ident : String
  wherePreds : Option (List Pred)
  data : DataShape
deriving DecidableEq

/-- A failed invocation: `unimplemented!()` (enums, line 82) or `panic!`
(unions, line 84), each carrying its panic message. -/
inductive DeriveError where
  | unimplemented : String → DeriveError
  | panicked : String → DeriveError
deriving DecidableEq

/-- The generated `impl Generic` (lines 103-113): the type it is for, the
names of the methods it defines, the representation type expression, the
combined where clause, and the accessor and binding token sequences used by
both conversion bodies. -/
structure DeriveOutput where
  implFor : String
  methods : List String
  reprTy : SynTy
  whereClause : List Pred
  selfFieldToks : List Tok
  ordinalToks : List Tok
deriving DecidableEq

/-- The derive entry point `generic_macro_derive`
(`src/generics_derive/src/lib.rs` lines 12-114): structs produce the full
impl; enums hit `unimplemented!()`; unions hit
`panic!("\x60Generic\x60 cannot be derived for unions")`. -/
def generic_derive (input : DeriveInput) : Except DeriveError DeriveOutput :=
  match input.data with
  | .struktD fields =>
    .ok
      { implFor := input.ident
        methods := ["into_repr", "from_repr"]
        reprTy := fields.foldl (fun acc f => .prodS acc (.reprOfS f.ty)) .unitS
        whereClause := combinedWhereClause input.wherePreds fields
        selfFieldToks := selfFields fields
        ordinalToks := ordinals fields }
  | .enumD _ => .error (.unimplemented "not implemented")
  | .unionD => .error (.panicked "\x60Generic\x60 cannot be derived for unions")

/-- Whether the first character list starts the second. -/
def leadsWith : List Char → List Char → Bool
  | [], _ => true
  | _ :: _, [] => false
  | a :: as, b :: bs => a == b && leadsWith as bs

/-- Whether the first character list occurs contiguously in the second. -/
def occursIn : List Char → List Char → Bool
  | needle, [] => leadsWith needle []
  | needle, c :: cs => leadsWith needle (c :: cs) || occursIn needle cs

/-- Whether one string occurs inside another. -/
def mentions (needle msg : String) : Bool :=
  occursIn needle.toList msg.toList

/-- The method names declared by the public `Generic` trait
(`src/src/lib.rs` lines 83 and 86: `fn into(self: Self) -> Self::Repr` and
`fn from(repr: Self::Repr) -> Self`). -/
def traitMethodNames : List String := ["into", "from"]

/-- The method names implemented by `impl_identity!` for every registered
primitive (`src/src/prim.rs` lines 8 and 11). -/
def primImplMethodNames : List String := ["into_repr", "from_repr"]

/-- The fieldless marker `std::marker::PhantomData<M>`: a unit struct
carrying no data. -/
structure PhantomData (M : Type) : Type

/-- The `Singleton` capability (`src/src/lib.rs` lines 259-264): associates
a zero-size marker type with its compile-time payload. -/
class Singleton (M : Type) where
  T : Type
  get : T

/-- `Meta<I, M>(pub I, pub PhantomData<M>) where M: Singleton`
(`src/src/lib.rs` lines 252-254). -/
structure Meta (I M : Type) [Singleton M] : Type where
  inner : I
  marker : PhantomData M

/-- Wrapping a representation node in the metadata wrapper. -/
def Meta.wrap {I M : Type} [Singleton M] (x : I) : Meta I M :=
  ⟨x, ⟨⟩⟩

/-- Forwarding through the wrapper to the inner node. -/
def Meta.unwrap {I M : Type} [Singleton M] (m : Meta I M) : I :=
  m.inner

theorem reprOfFields_eq_foldl (fs : List GTy) (acc : ReprTy) :
    reprOfFields fs acc = fs.foldl (fun a f => .Prod a (reprOf f)) acc := by
  induction fs generalizing acc with
  | nil => rfl
  | cons f fs ih => simp [reprOfFields, ih]

theorem intoFields_length (fs : List GTy) : ∀ (vs rs : List Val),
    intoFields fs vs = some rs → rs.length = fs.length := by
  induction fs with
  | nil =>
    intro vs rs h
    cases vs with
    | nil => simp [intoFields] at h; simp [← h]
    | cons v vs => simp [intoFields] at h
  | cons f fs ih =>
    intro vs rs h
    cases vs with
    | nil => simp [intoFields] at h
    | cons v vs =>
      cases hr : into_repr f v with
      | none => simp [intoFields, hr] at h
      | some r =>
        cases hrs : intoFields fs vs with
        | none => simp [intoFields, hr, hrs] at h
        | some rs2 =>
          simp [intoFields, hr, hrs] at h
          simp [← h, ih vs rs2 hrs]

theorem splitProd_foldl (rs : List Val) :
    splitProd rs.length (rs.foldl .prod .unit) = some rs := by
  induction rs using List.reverseRecOn with
  | nil => rfl
  | append_singleton as b ih => simp [List.foldl_append, splitProd, ih]

mutual
/-- Reconstruction undoes decomposition: whenever the generated `into_repr`
succeeds, the generated `from_repr` maps its output back to the input. -/
theorem from_repr_into_repr : ∀ (t : GTy) (v r : Val),
    into_repr t v = some r → from_repr t r = some v
  | .prim _, v, r, h => by
    simp [into_repr] at h
    simp [from_repr, ← h]
  | .strukt fs, .record vs, r, h => by
    cases hrs : intoFields fs vs with
    | none => simp [into_repr, hrs] at h
    | some rs =>
      simp [into_repr, hrs] at h
      have hlen : rs.length = fs.length := intoFields_length fs vs rs hrs
      have hsplit := splitProd_foldl rs
      rw [hlen] at hsplit
      simp [from_repr, ← h, hsplit, fromFields_intoFields fs vs rs hrs]
  | .strukt _, .int _, r, h => by simp [into_repr] at h
  | .strukt _, .unit, r, h => by simp [into_repr] at h
  | .strukt _, .prod _ _, r, h => by simp [into_repr] at h

/-- Pointwise version of `from_repr_into_repr` over the field lists. -/
theorem fromFields_intoFields : ∀ (fs : List GTy) (vs rs : List Val),
    intoFields fs vs = some rs → fromFields fs rs = some vs
  | [], [], rs, h => by
    simp [intoFields] at h
    subst h
    simp [fromFields]
  | [], _ :: _, _, h => by simp [intoFields] at h
  | _ :: _, [], _, h => by simp [intoFields] at h
  | f :: fs, v :: vs, rs, h => by
    cases hr : into_repr f v with
    | none => simp [intoFields, hr] at h
    | some r =>
      cases hrs : intoFields fs vs with
      | none => simp [intoFields, hr, hrs] at h
      | some rs2 =>
        simp [intoFields, hr, hrs] at h
        simp [← h, fromFields, from_repr_into_repr f v r hr,
          fromFields_intoFields fs vs rs2 hrs]
end

mutual
/-- Decomposition succeeds on every legal (well-typed) value. -/
theorem into_repr_isSome : ∀ (t : GTy) (v : Val),
    wf t v = true → (into_repr t v).isSome = true
  | .prim _, v, _ => by simp [into_repr]
  | .strukt fs, .record vs, h => by
    have := intoFields_isSome fs vs (by simpa [wf] using h)
    cases hrs : intoFields fs vs with
    | none => simp [hrs] at this
    | some rs => simp [into_repr, hrs]
  | .strukt _, .int _, h => by simp [wf] at h
  | .strukt _, .unit, h => by simp [wf] at h
  | .strukt _, .prod _ _, h => by simp [wf] at h

/-- Pointwise version of `into_repr_isSome` over the field lists. -/
theorem intoFields_isSome : ∀ (fs : List GTy) (vs : List Val),
    wfFields fs vs = true → (intoFields fs vs).isSome = true
  | [], [], _ => by simp [intoFields]
  | [], _ :: _, h => by simp [wfFields] at h
  | _ :: _, [], h => by simp [wfFields] at h
  | f :: fs, v :: vs, h => by
    have h1 : wf f v = true := by simp [wfFields] at h; exact h.1
    have h2 : wfFields fs vs = true := by simp [wfFields] at h; exact h.2
    have hv := into_repr_isSome f v h1
    have hvs := intoFields_isSome fs vs h2
    cases hr : into_repr f v with
    | none => simp [hr] at hv
    | some r =>
      cases hrs : intoFields fs vs with
      | none => simp [hrs] at hvs
      | some rs => simp [intoFields, hr, hrs]
end

theorem specShape_append (ls : List ReprTy) (b : ReprTy) :
    specShape (ls ++ [b]) = .Prod (specShape ls) b := by
  simp [specShape, specShapeRev]

theorem reprOf_strukt_eq_specShape (fs : List GTy) :
    reprOf (.strukt fs) = specShape (fs.map reprOf) := by
  rw [reprOf, reprOfFields_eq_foldl]
  induction fs using List.reverseRecOn with
  | nil => rfl
  | append_singleton as b ih =>
    simp only [List.foldl_append, List.map_append, List.foldl_cons, List.foldl_nil,
      List.map_cons, List.map_nil, specShape_append, ih]

theorem leftSpineLeaves_specShape (ls : List ReprTy) :
    leftSpineLeaves (specShape ls) = ls := by
  induction ls using List.reverseRecOn with
  | nil => rfl
  | append_singleton as b ih => simp [specShape_append, leftSpineLeaves, ih]

theorem intoFields_eq_mapM (fs : List GTy) : ∀ (vs : List Val), fs.length = vs.length →
    intoFields fs vs = (fs.zip vs).mapM (fun p => into_repr p.1 p.2) := by
  induction fs with
  | nil =>
    intro vs h
    cases vs with
    | nil => simp only [intoFields, List.zip_nil_left, List.mapM_nil]; rfl
    | cons v vs => simp at h
  | cons f fs ih =>
    intro vs h
    cases vs with
    | nil => simp at h
    | cons v vs =>
      simp only [List.length_cons, Nat.succ.injEq] at h
      simp only [intoFields, ih vs h, List.zip_cons_cons, List.mapM_cons]

theorem fromFields_eq_mapM (fs : List GTy) : ∀ (rs : List Val), fs.length = rs.length →
    fromFields fs rs = (fs.zip rs).mapM (fun p => from_repr p.1 p.2) := by
  induction fs with
  | nil =>
    intro rs h
    cases rs with
    | nil => simp only [fromFields, List.zip_nil_left, List.mapM_nil]; rfl
    | cons r rs => simp at h
  | cons f fs ih =>
    intro rs h
    cases rs with
    | nil => simp at h
    | cons r rs =>
      simp only [List.length_cons, Nat.succ.injEq] at h
      simp only [fromFields, ih rs h, List.zip_cons_cons, List.mapM_cons]

mutual
theorem reprOf_no_sum_meta_aux : ∀ t : GTy, hasSumOrMeta (reprOf t) = false
  | .prim _ => by rw [reprOf]; rfl
  | .strukt fs => by
    rw [reprOf]
    exact reprOfFields_no_sum_meta_aux fs .Unit rfl

theorem reprOfFields_no_sum_meta_aux : ∀ (fs : List GTy) (acc : ReprTy),
    hasSumOrMeta acc = false → hasSumOrMeta (reprOfFields fs acc) = false
  | [], acc, h => by rwa [reprOfFields]
  | f :: fs, acc, h => by
    rw [reprOfFields]
    exact reprOfFields_no_sum_meta_aux fs _
      (by simp [hasSumOrMeta, h, reprOf_no_sum_meta_aux f])
end

/-- C1: for every supported record type (named-field, positional, or
zero-field: all are folded over the same uniform field list) and every legal
value `x`, reconstruct after decompose returns `x` itself, and for the
representation `r` that decompose produces, decompose after reconstruct
returns `r` itself. -/
theorem roundtrip_law (t : GTy) (v : Val) (h : wf t v = true) :
    ∃ r, into_repr t v = some r ∧ from_repr t r = some v ∧
      (from_repr t r).bind (into_repr t) = some r := by
  obtain ⟨r, hr⟩ := Option.isSome_iff_exists.mp (into_repr_isSome t v h)
  have h2 := from_repr_into_repr t v r hr
  exact ⟨r, hr, h2, by simp [h2, hr]⟩

/-- Witness for C1: the nested two-level record of `tests/struct_nested.rs`
(`Four { a: Two { a: 18, b: 23 }, b: Two { a: 19, b: 24 } }`). -/
theorem roundtrip_law_witness :
    ∃ r,
      into_repr (.strukt [.strukt [.prim .u64, .prim .u64], .strukt [.prim .u64, .prim .u64]])
        (.record [.record [.int 18, .int 23], .record [.int 19, .int 24]]) = some r ∧
      from_repr (.strukt [.strukt [.prim .u64, .prim .u64], .strukt [.prim .u64, .prim .u64]]) r =
        some (.record [.record [.int 18, .int 23], .record [.int 19, .int 24]]) ∧
      (from_repr (.strukt [.strukt [.prim .u64, .prim .u64], .strukt [.prim .u64, .prim .u64]]) r).bind
        (into_repr (.strukt [.strukt [.prim .u64, .prim .u64], .strukt [.prim .u64, .prim .u64]])) =
        some r :=
  roundtrip_law _ _ (by decide)

/-- C2: the derived representation type of an N-field record is exactly the
spec's shape: `Empty` when N = 0, and otherwise N left-associated nested
`Product` applications over the `Empty` anchor with leaves in
field-declaration order. -/
theorem shape_law (fs : List GTy) :
    reprOf (.strukt fs) = specShape (fs.map reprOf) ∧ reprOf (.strukt []) = .Unit :=
  ⟨reprOf_strukt_eq_specShape fs, by rw [reprOf, reprOfFields]⟩

/-- C3: recursive mode: each leaf of a derived struct representation is the
field's own derived representation (its `Repr`), and decompose/reconstruct
convert every field recursively via `Generic::into_repr` /
`Generic::from_repr`, before folding into (resp. after unfolding from) the
nested-product shape. -/
theorem recursive_mode_law (fs : List GTy) (vs rs : List Val)
    (hv : fs.length = vs.length) (hr : rs.length = fs.length) :
    leftSpineLeaves (reprOf (.strukt fs)) = fs.map reprOf ∧
    into_repr (.strukt fs) (.record vs) =
      ((fs.zip vs).mapM (fun p => into_repr p.1 p.2)).map (fun l => l.foldl .prod .unit) ∧
    from_repr (.strukt fs) (rs.foldl .prod .unit) =
      ((fs.zip rs).mapM (fun p => from_repr p.1 p.2)).map Val.record := by
  refine ⟨?_, ?_, ?_⟩
  · rw [reprOf_strukt_eq_specShape, leftSpineLeaves_specShape]
  · rw [into_repr, intoFields_eq_mapM fs vs hv]
  · have hsplit := splitProd_foldl rs
    rw [hr] at hsplit
    rw [from_repr, hsplit]
    simp only [Option.bind_eq_bind, Option.some_bind]
    rw [fromFields_eq_mapM fs rs hr.symm]
    cases (fs.zip rs).mapM (fun p => from_repr p.1 p.2) <;> rfl

/-- Witness for C3: the two-field `u64` record with values `19` and `23`. -/
theorem recursive_mode_law_witness :
    leftSpineLeaves (reprOf (.strukt [.prim .u64, .prim .u64])) =
      [.prim .u64, .prim .u64].map reprOf ∧
    into_repr (.strukt [.prim .u64, .prim .u64]) (.record [.int 19, .int 23]) =
      (([(GTy.prim .u64, Val.int 19), (GTy.prim .u64, Val.int 23)]).mapM
        (fun p => into_repr p.1 p.2)).map (fun l => l.foldl .prod .unit) ∧
    from_repr (.strukt [.prim .u64, .prim .u64]) ([Val.int 19, Val.int 23].foldl .prod .unit) =
      (([(GTy.prim .u64, Val.int 19), (GTy.prim .u64, Val.int 23)]).mapM
        (fun p => from_repr p.1 p.2)).map Val.record :=
  recursive_mode_law [.prim .u64, .prim .u64] [.int 19, .int 23] [.int 19, .int 23]
    (by decide) (by decide)

/-- C5: every type in the primitive leaf registry (all ten signed and
unsigned integer widths) is its own representation, and both conversion
procedures are the identity. -/
theorem primitive_leaf_law (p : PrimTy) (v : Val) :
    p ∈ registeredPrims ∧ reprOf (.prim p) = .prim p ∧
    into_repr (.prim p) v = some v ∧ from_repr (.prim p) v = some v := by
  refine ⟨?_, by rw [reprOf], by rw [into_repr], by rw [from_repr]⟩
  cases p <;> simp [registeredPrims]

/-- C10: a derived struct representation contains only the `Unit` anchor and
`Prod` nodes around field-representation leaves: no `Meta` (`Tagged`) node
and no `Sum` node ever appears, so derived representations carry no name
metadata. -/
theorem derived_repr_no_sum_no_meta (fs : List GTy) :
    hasSumOrMeta (reprOf (.strukt fs)) = false :=
  reprOf_no_sum_meta_aux (.strukt fs)

/-- C4: the generated constraint clause contains, for every field, the
obligation that the field's declared type implements `Generic`, and every
pre-existing predicate of the original declaration appears unchanged in the
combined clause (union with duplicates permitted). -/
theorem constraint_propagation_law (fields : List FieldDesc) (existing : Option (List Pred)) :
    (∀ f ∈ fields, Pred.genericBound f.ty ∈ combinedWhereClause existing fields) ∧
    (∀ ps, existing = some ps → ∀ p ∈ ps, p ∈ combinedWhereClause existing fields) := by
  constructor
  · intro f hf
    have hmem : Pred.genericBound f.ty ∈ tyPredicates fields :=
      List.mem_map_of_mem (fun g => Pred.genericBound g.ty) hf
    cases existing with
    | none => simpa [combinedWhereClause] using hmem
    | some ps =>
      simp only [combinedWhereClause, List.mem_append]
      exact Or.inl hmem
  · intro ps hps p hp
    subst hps
    simp only [combinedWhereClause, List.mem_append]
    exact Or.inr hp

/-- Witness for C4: one named `u64` field plus one pre-existing predicate,
as in `tests/struct_generic.rs`. -/
theorem constraint_propagation_law_witness :
    Pred.genericBound (.prim .u64) ∈
      combinedWhereClause (some [.preexisting "T: Display"]) [⟨some "a", .prim .u64⟩] ∧
    Pred.preexisting "T: Display" ∈
      combinedWhereClause (some [.preexisting "T: Display"]) [⟨some "a", .prim .u64⟩] :=
  ⟨(constraint_propagation_law [⟨some "a", .prim .u64⟩] (some [.preexisting "T: Display"])).1
      ⟨some "a", .prim .u64⟩ (by simp),
   (constraint_propagation_law [⟨some "a", .prim .u64⟩] (some [.preexisting "T: Display"])).2
      [.preexisting "T: Display"] rfl (.preexisting "T: Display") (by simp)⟩

/-- Counterexample to C6 as stated: the build failure message does not name
the offending type. Deriving on the enum `MyEnum` panics with the bare
message "not implemented", which contains neither "MyEnum" nor the shape;
the union message names the shape but not the offending type `MyUnion`. -/
theorem reject_message_counterexample :
    generic_derive ⟨"MyEnum", none, .enumD ["A"]⟩ =
      .error (.unimplemented "not implemented") ∧
    mentions "MyEnum" "not implemented" = false ∧
    generic_derive ⟨"MyUnion", none, .unionD⟩ =
      .error (.panicked "\x60Generic\x60 cannot be derived for unions") ∧
    mentions "MyUnion" "\x60Generic\x60 cannot be derived for unions" = false :=
  ⟨rfl, by decide, rfl, by decide⟩

/-- C6 amended: for opaque unions and (currently) tagged unions the
derivation fails the invocation outright, producing no partial output; the
union panic message names the unsupported shape ("unions"), while the enum
panic message only reports "not implemented"; neither message itself
contains the offending type's name (the host compiler attaches the failing
location to the build error instead). -/
theorem reject_enums_and_unions (input : DeriveInput) :
    (∀ vs, input.data = .enumD vs →
      generic_derive input = .error (.unimplemented "not implemented")) ∧
    (input.data = .unionD →
      generic_derive input = .error (.panicked "\x60Generic\x60 cannot be derived for unions")) ∧
    mentions "unions" "\x60Generic\x60 cannot be derived for unions" = true := by
  refine ⟨?_, ?_, by decide⟩
  · intro vs h
    simp [generic_derive, h]
  · intro h
    simp [generic_derive, h]

/-- Witness for C6 (amended): a concrete two-variant enum input is rejected
with the unimplemented panic. -/
theorem reject_enums_and_unions_witness :
    generic_derive ⟨"E", none, .enumD ["A", "B"]⟩ =
      .error (.unimplemented "not implemented") :=
  (reject_enums_and_unions ⟨"E", none, .enumD ["A", "B"]⟩).1 ["A", "B"] rfl

/-- Counterexample to C7 as stated: the synthesized binding names are not
guaranteed non-colliding. A field declared with the name `_0` yields the
accessor token `_0` and the synthesized binding token `_0`: they collide. -/
theorem ordinal_collision_counterexample :
    selfFields [⟨some "_0", .prim .u64⟩] = [.ident "_0"] ∧
    ordinals [⟨some "_0", .prim .u64⟩] = [.ident "_0"] :=
  ⟨rfl, rfl⟩

/-- C7 amended: the accessor of each field is its declared name when present
and its zero-based index otherwise, and one ordinal-indexed binding name
`_i` is synthesized per field, used for both destructuring and
reconstruction; the binding names can never collide with positional
accessors (identifier versus integer-literal tokens), but nothing prevents a
collision with a declared field name of the form `_i` (see the
counterexample), which the generated pattern syntax tolerates. -/
theorem accessors_and_ordinals (fields : List FieldDesc) :
    (∀ i : Nat, (selfFields fields)[i]? = (fields[i]?).map (accessorTok i)) ∧
    (∀ i : Nat, i < fields.length →
      (ordinals fields)[i]? = some (.ident ("_" ++ toString i))) ∧
    ((∀ f ∈ fields, f.name = none) →
      ∀ t ∈ ordinals fields, t ∉ selfFields fields) := by
  refine ⟨?_, ?_, ?_⟩
  · intro i
    simp only [selfFields, List.getElem?_map, List.getElem?_enum]
    cases fields[i]? <;> rfl
  · intro i h
    simp only [ordinals, List.getElem?_map, List.getElem?_range h]
    rfl
  · intro hun t ht hmem
    obtain ⟨i, hi, rfl⟩ := List.mem_map.mp ht
    obtain ⟨p, hp, hacc⟩ := List.mem_map.mp hmem
    have hf : fields[p.1]? = some p.2 := List.mem_enum_iff_getElem?.mp hp
    have hfm : p.2 ∈ fields := by
      rw [List.getElem?_eq_some] at hf
      obtain ⟨hlt, heq⟩ := hf
      rw [← heq]
      exact List.getElem_mem hlt
    have hname := hun p.2 hfm
    simp [accessorTok, hname, ordinalTok] at hacc

/-- Witness for C7 (amended): the two positional `u64` fields of
`tests/struct_tuple.rs`. -/
theorem accessors_and_ordinals_witness :
    (ordinals [⟨none, .prim .u64⟩, ⟨none, .prim .u64⟩])[1]? =
      some (.ident ("_" ++ toString 1)) ∧
    Tok.ident "_0" ∉ selfFields [⟨none, .prim .u64⟩, ⟨none, .prim .u64⟩] :=
  ⟨(accessors_and_ordinals [⟨none, .prim .u64⟩, ⟨none, .prim .u64⟩]).2.1 1 (by decide),
   (accessors_and_ordinals [⟨none, .prim .u64⟩, ⟨none, .prim .u64⟩]).2.2 (by decide)
      (Tok.ident "_0") (by decide)⟩

/-- C9 is refuted by the sources: the derive's generated impl
(`src/generics_derive/src/lib.rs` lines 106-111) and the primitive leaf
registry both define `into_repr`/`from_repr`, but the `Generic` trait of
`src/src/lib.rs` declares `into`/`from`, so the implementations (and the
crate's own tests, which call `.into_repr()`) do not match the trait's
declared interface. -/
theorem trait_method_mismatch :
    primImplMethodNames ≠ traitMethodNames ∧
    (generic_derive ⟨"Foo", none, .struktD []⟩).map DeriveOutput.methods =
      .ok ["into_repr", "from_repr"] ∧
    (["into_repr", "from_repr"] : List String) ≠ traitMethodNames :=
  ⟨by decide, rfl, by decide⟩

/-- C8: metadata transparency: wrapping any representation node `x` in
`Meta` and unwrapping yields `x` unchanged (so any decompose/reconstruct
round trip computed after unwrapping is unaffected by the wrapper), wrapping
is also a left inverse of unwrapping, and `Meta I M` is in bijection with
`I` — the fieldless `PhantomData` marker adds no runtime data, which is the
zero-footprint content of the wrapper. -/
theorem meta_transparency (I M : Type) [Singleton M] :
    (∀ x : I, Meta.unwrap (Meta.wrap (M := M) x) = x) ∧
    (∀ m : Meta I M, Meta.wrap (Meta.unwrap m) = m) ∧
    Nonempty (Meta I M ≃ I) := by
  refine ⟨fun x => rfl, ?_, ?_⟩
  · intro m
    cases m with
    | mk inner marker => cases marker; rfl
  · exact ⟨⟨Meta.unwrap, Meta.wrap,
      fun m => by cases m with | mk inner marker => cases marker; rfl,
      fun x => rfl⟩⟩

end Generics
